import Mathlib

/-!
Verification of the TeleSave media downloader (`main.py`).

The file shallowly embeds the program's core: the per-chat download ledger
(`load_downloaded_set` / `save_downloaded_set`), the media classifier
(`is_photo_message` / `is_video_message`), the naming resolver
(`build_unique_filename`), the scan collector (`collect_media_messages`) and
the download pass (`download_messages`).  Python integers are `Int`, Python
sets are `Finset`, the filesystem is the finite set of existing file paths,
and the network transport is an oracle giving each message's fetch outcome.
Theorems at the end check the specification's claims against the embedding.
-/

/- ### Decimal rendering of Python integers

`f"msg_{msg.id}_"` and `f"group_{msg.grouped_id}"` render integers in
decimal.  `natDecCore` accumulates the decimal digits of `n` (most
significant first) with structural fuel so that concrete instances evaluate
by `rfl`; `natDec`/`intDec` package it as Python's `str`. -/

def natDecCore : Nat → Nat → List Char
  | 0, _ => []
  | _ + 1, 0 => []
  | fuel + 1, n + 1 => natDecCore fuel ((n + 1) / 10) ++ [Nat.digitChar ((n + 1) % 10)]

/-- Python's `str(n)` for a natural number `n`. -/
def natDec (n : Nat) : String :=
  if n = 0 then "0" else (natDecCore n n).asString

/-- Python's `str(n)` for an integer `n`: decimal digits, `-` sign when
negative. -/
def intDec : Int → String
  | .ofNat m => natDec m
  | .negSucc m => "-" ++ natDec (m + 1)

/-- Numeric value recovered from a most-significant-first decimal digit
list; used to show the rendering is injective. -/
def decVal (l : List Char) : Nat :=
  l.foldl (fun a c => 10 * a + (c.toNat - 48)) 0

/- ### Python JSON values, exceptions, and the ledger file

`load_downloaded_set` wraps its body in `try/except Exception`, so every
Python-level failure (missing key on a non-dict, `int()` on a bad value,
iterating a non-iterable, unparsable JSON) must collapse to the empty set.
The embedding makes each fallible Python step an `Except`. -/

inductive PyVal where
  | vNull
  | vBool (b : Bool)
  | vInt (n : Int)
  | vStr (s : String)
  | vList (xs : List PyVal)
  | vDict (entries : List (String × PyVal))

inductive PyErr where
  | attributeErr
  | typeErr
  | valueErr
deriving DecidableEq

/-- `data.get(key, default)`: raises `AttributeError` unless `data` is a
dict. -/
def pyGet (v : PyVal) (key : String) (dft : PyVal) : Except PyErr PyVal :=
  match v with
  | .vDict es =>
    match es.lookup key with
    | some x => .ok x
    | none => .ok dft
  | _ => .error .attributeErr

/-- Iterating a Python value: lists yield elements, strings yield their
characters, dicts their keys; other values raise `TypeError`. -/
def pyIterate : PyVal → Except PyErr (List PyVal)
  | .vList xs => .ok xs
  | .vStr s => .ok (s.data.map (fun c => .vStr (String.mk [c])))
  | .vDict es => .ok (es.map (fun e => .vStr e.1))
  | .vNull => .error .typeErr
  | .vBool _ => .error .typeErr
  | .vInt _ => .error .typeErr

/-- Value of a nonempty all-digit character list, else `none`. -/
def digitsVal? (l : List Char) : Option Nat :=
  if l.isEmpty then none
  else if l.all Char.isDigit then some (decVal l)
  else none

/-- Python's `int(s)` on a string: optional surrounding spaces, optional
sign, decimal digits; anything else raises `ValueError`. -/
def strToInt? (s : String) : Option Int :=
  let t := ((s.data.dropWhile (· == ' ')).reverse.dropWhile (· == ' ')).reverse
  match t with
  | '-' :: rest => (digitsVal? rest).map (fun n => -(n : Int))
  | '+' :: rest => (digitsVal? rest).map (fun n => (n : Int))
  | _ => (digitsVal? t).map (fun n => (n : Int))

/-- Python's `int(x)`: ints pass through, booleans coerce, strings parse or
raise `ValueError`, everything else raises `TypeError`. -/
def pyInt : PyVal → Except PyErr Int
  | .vInt n => .ok n
  | .vBool b => .ok (if b then 1 else 0)
  | .vStr s =>
    match strToInt? s with
    | some n => .ok n
    | none => .error .valueErr
  | .vNull => .error .typeErr
  | .vList _ => .error .typeErr
  | .vDict _ => .error .typeErr

/-- The on-disk state of a ledger file as `load_downloaded_set` can
encounter it: absent, present but not valid JSON (`json.load` raises), or
parsed into a JSON value. -/
inductive LedgerFile where
  | missing
  | unparsable
  | parsed (v : PyVal)

/-- Evaluate `int(x) for x in items` left to right, stopping at the first
exception, as the generator inside `set(...)` does. -/
def pyIntList : List PyVal → Except PyErr (List Int)
  | [] => .ok []
  | x :: t =>
    match pyInt x with
    | .error e => .error e
    | .ok n =>
      match pyIntList t with
      | .error e => .error e
      | .ok rest => .ok (n :: rest)

/-- The body of the `try` block of `load_downloaded_set`:
`data.get("downloaded_ids", [])` then `set(int(x) for x in ids)`. -/
def load_ids (v : PyVal) : Except PyErr (Finset Int) :=
  match pyGet v "downloaded_ids" (.vList []) with
  | .error e => .error e
  | .ok ids =>
    match pyIterate ids with
    | .error e => .error e
    | .ok items =>
      match pyIntList items with
      | .error e => .error e
      | .ok ints => .ok ints.toFinset

/-- `load_downloaded_set`: missing file or any exception in the body gives
the empty set. -/
def load_downloaded_set (c : LedgerFile) : Finset Int :=
  match c with
  | .missing => ∅
  | .unparsable => ∅
  | .parsed v =>
    match load_ids v with
    | .ok s => s
    | .error _ => ∅

/- ### Saving the ledger -/

/-- The `meta` dict built by `download_messages` (`id` and `name` keys). -/
structure ChatMeta where
  id : Option Int
  name : Option String

/-- The JSON object `save_downloaded_set` serializes. -/
structure LedgerPayload where
  chat_id : Option Int
  chat_name : Option String
  downloaded_ids : List Int

def per_chat_log_path (chat_folder : String) : String :=
  chat_folder ++ "/_downloaded.json"

/-- `log_path.with_suffix(".tmp")` applied to `_downloaded.json`. -/
def ledger_tmp_path (chat_folder : String) : String :=
  chat_folder ++ "/_downloaded.tmp"

/-- Filesystem effects of `save_downloaded_set`, in order: the payload is
written to the temp path, which is then renamed (`os.replace`) over the
ledger path. -/
inductive FsOp where
  | writeFile (path : String) (payload : LedgerPayload)
  | replaceFile (src dst : String)

/-- `save_downloaded_set`: builds the payload (with
`sorted(list(msg_ids))`) and performs the write-then-rename sequence. -/
def save_downloaded_set (chat_folder : String) (msg_ids : Finset Int)
    (chat_meta : ChatMeta) : LedgerPayload × List FsOp :=
  let payload : LedgerPayload :=
    { chat_id := chat_meta.id
      chat_name := chat_meta.name
      downloaded_ids := msg_ids.sort (· ≤ ·) }
  (payload,
    [FsOp.writeFile (ledger_tmp_path chat_folder) payload,
     FsOp.replaceFile (ledger_tmp_path chat_folder) (per_chat_log_path chat_folder)])

/-- The JSON value a saved payload parses back to. -/
def payloadVal (p : LedgerPayload) : PyVal :=
  .vDict
    [("chat_id", match p.chat_id with | some n => .vInt n | none => .vNull),
     ("chat_name", match p.chat_name with | some s => .vStr s | none => .vNull),
     ("downloaded_ids", .vList (p.downloaded_ids.map .vInt))]

/- ### Messages and the media classifier -/

inductive TLMedia where
  | mediaPhoto
  | mediaDocument
  | mediaOther

inductive DocAttr where
  | attrVideo
  | attrOther

structure TLDocument where
  attributes : List DocAttr

/-- The `msg.file` helper object: declared name and extension, either of
which may be absent (`None`). -/
structure TLFile where
  name : Option String
  ext : Option String

/-- A Telegram message as the program probes it: `id`, `grouped_id`,
`photo`/`video` shortcut flags, the `media` envelope, the `document`, and
the `file` helper. -/
structure Msg where
  id : Int
  grouped_id : Option Int
  photo : Bool
  video : Bool
  media : Option TLMedia
  document : Option TLDocument
  file : Option TLFile

/-- `is_photo_message`: `msg and (msg.photo or isinstance(msg.media,
MessageMediaPhoto))`. -/
def is_photo_message : Option Msg → Bool
  | none => false
  | some msg =>
    msg.photo ||
      (match msg.media with
       | some .mediaPhoto => true
       | _ => false)

/-- `is_video_message`: the `video` shortcut, else a document carrying a
`DocumentAttributeVideo` attribute. -/
def is_video_message : Option Msg → Bool
  | none => false
  | some msg =>
    if msg.video then true
    else
      match msg.document with
      | none => false
      | some doc =>
        doc.attributes.any (fun a =>
          match a with
          | .attrVideo => true
          | .attrOther => false)

/- ### Naming resolver -/

/-- The `else` branch of `build_unique_filename`: `file{ext}` where `ext`
is the file's extension if truthy, else the default. -/
def synth_base (file? : Option TLFile) (default_ext : String) : String :=
  let e :=
    match file? with
    | some f =>
      match f.ext with
      | some x => if x = "" then default_ext else x
      | none => default_ext
    | none => default_ext
  "file" ++ e

/-- The `base` of `build_unique_filename`: the declared filename when
truthy (`msg.file and msg.file.name`), else the synthesized one. -/
def base_name (msg : Msg) (default_ext : String) : String :=
  match msg.file with
  | some f =>
    match f.name with
    | some n => if n = "" then synth_base msg.file default_ext else n
    | none => synth_base msg.file default_ext
  | none => synth_base none default_ext

/-- `build_unique_filename`: the base name prefixed with `msg_{id}_`. -/
def build_unique_filename (msg : Msg) (default_ext : String) : String :=
  "msg_" ++ intDec msg.id ++ "_" ++ base_name msg default_ext

/- ### Scan collector -/

/-- The body of the `async for` loop of `collect_media_messages`: skip
falsy messages and messages without media, keep those matching the
requested media type. -/
def collect_step (media_type : String) (acc : List Msg) : Option Msg → List Msg
  | none => acc
  | some m =>
    if m.media.isNone then acc
    else if media_type = "photos" then
      if is_photo_message (some m) then acc ++ [m] else acc
    else if media_type = "videos" then
      if is_video_message (some m) then acc ++ [m] else acc
    else
      if is_photo_message (some m) || is_video_message (some m) then acc ++ [m]
      else acc

/-- The filter the `else  # both` branch applies: a message survives iff
it has media and classifies as photo or video. -/
def both_filter (m? : Option Msg) : Option Msg :=
  match m? with
  | none => none
  | some m =>
    if m.media.isSome && (is_photo_message (some m) || is_video_message (some m))
    then some m else none

/-- `collect_media_messages`: walk up to `limit` messages delivered
newest-first, keep media messages matching the requested type, and reverse
at the end when `order == "oldest"`. -/
def collect_media_messages (history : List (Option Msg)) (media_type : String)
    (limit : Nat) (order : String) : List Msg :=
  let collected := (history.take limit).foldl (collect_step media_type) []
  if order = "oldest" then collected.reverse else collected

/- ### Download pass -/

/-- Outcome of one `download_media` call, as the `try/except` of
`download_messages` distinguishes them: success, `FloodWaitError` with its
`seconds`, or any other exception. -/
inductive FetchResult where
  | ok
  | floodWait (seconds : Nat)
  | fetchErr (e : String)
deriving DecidableEq

/-- Terminal per-message outcome observed during a pass. -/
inductive Outcome where
  | downloadedNew
  | skippedLedger
  | skippedExisting
  | failed
deriving DecidableEq

/-- State of one download pass: the in-memory ledger, the set of existing
file paths, the two counters the pass returns, plus the observable trace
(progress advances, total sleep, ids handed to the fetch step, error log
lines, terminal outcomes in processing order). -/
structure DlState where
  downloaded_ids : Finset Int
  files : Finset String
  completed : Nat
  skipped : Nat
  advanced : Nat
  slept : Nat
  fetched : List Int
  logs : List (Int × String)
  outcomes : List (Int × Outcome)

/-- `if msg.grouped_id:` — albums go to `group_{id}` under the chat root
(`None` and `0` are falsy). -/
def target_dir (chat_folder : String) (msg : Msg) : String :=
  match msg.grouped_id with
  | some g => if g = 0 then chat_folder else chat_folder ++ "/group_" ++ intDec g
  | none => chat_folder

def out_path (chat_folder : String) (msg : Msg) : String :=
  target_dir chat_folder msg ++ "/" ++ build_unique_filename msg ".bin"

/-- One iteration of the `for msg in messages` loop of
`download_messages`: ledger hit skips; an existing file at the destination
reconciles and skips; otherwise the fetch runs and its outcome is success,
a flood-wait sleep (after which the loop moves on), or a logged failure. -/
def process_message (fetch : Msg → FetchResult) (chat_folder : String)
    (s : DlState) (msg : Msg) : DlState :=
  if msg.id ∈ s.downloaded_ids then
    { s with skipped := s.skipped + 1, advanced := s.advanced + 1,
             outcomes := s.outcomes ++ [(msg.id, Outcome.skippedLedger)] }
  else
    let p := out_path chat_folder msg
    if p ∈ s.files then
      { s with downloaded_ids := insert msg.id s.downloaded_ids,
               skipped := s.skipped + 1, advanced := s.advanced + 1,
               outcomes := s.outcomes ++ [(msg.id, Outcome.skippedExisting)] }
    else
      match fetch msg with
      | .ok =>
        { s with files := insert p s.files,
                 downloaded_ids := insert msg.id s.downloaded_ids,
                 completed := s.completed + 1, advanced := s.advanced + 1,
                 fetched := s.fetched ++ [msg.id],
                 outcomes := s.outcomes ++ [(msg.id, Outcome.downloadedNew)] }
      | .floodWait w =>
        { s with slept := s.slept + w, fetched := s.fetched ++ [msg.id] }
      | .fetchErr e =>
        { s with advanced := s.advanced + 1,
                 fetched := s.fetched ++ [msg.id],
                 logs := s.logs ++ [(msg.id, e)],
                 outcomes := s.outcomes ++ [(msg.id, Outcome.failed)] }

def init_state (ledger : Finset Int) (files : Finset String) : DlState :=
  { downloaded_ids := ledger, files := files, completed := 0, skipped := 0,
    advanced := 0, slept := 0, fetched := [], logs := [], outcomes := [] }

def download_pass (fetch : Msg → FetchResult) (chat_folder : String)
    (s : DlState) (messages : List Msg) : DlState :=
  messages.foldl (process_message fetch chat_folder) s

/-- `download_messages`: load the ledger, run the loop over all messages.
The final state carries the returned `(completed, skipped)` counters and
the ledger that `save_downloaded_set` then persists. -/
def download_messages (fetch : Msg → FetchResult) (chat_folder : String)
    (ledger : Finset Int) (files : Finset String) (messages : List Msg) : DlState :=
  download_pass fetch chat_folder (init_state ledger files) messages

/- ### Concrete sample data for closed instances -/

/-- A plain photo message with the given id, no album, no declared
filename. -/
def sampleMsg (i : Int) : Msg :=
  { id := i, grouped_id := none, photo := true, video := false,
    media := some TLMedia.mediaPhoto, document := none, file := none }

/-- Newest-first delivery with ids `[5, 3, 1]`, as in the order contract. -/
def sampleHistory : List (Option Msg) :=
  [some (sampleMsg 5), some (sampleMsg 3), some (sampleMsg 1)]

/-- A transport that fails message 9 with an exception and succeeds on
everything else. -/
def sampleFetch (m : Msg) : FetchResult :=
  if m.id = 9 then FetchResult.fetchErr "boom" else FetchResult.ok

/-- A photo message declaring the attachment filename `photo.jpg`; two of
these with different ids collide on the declared name. -/
def sampleNamed (i : Int) : Msg :=
  { id := i, grouped_id := none, photo := true, video := false,
    media := some TLMedia.mediaPhoto, document := none,
    file := some { name := some "photo.jpg", ext := some ".jpg" } }

/- ### Lemmas: decimal rendering -/

theorem natDecCore_fuel : ∀ (n f₁ f₂ : Nat), n ≤ f₁ → n ≤ f₂ →
    natDecCore f₁ n = natDecCore f₂ n := by
  intro n
  induction n using Nat.strong_induction_on with
  | _ n ih =>
    intro f₁ f₂ h₁ h₂
    match n, f₁, f₂ with
    | 0, 0, 0 => rfl
    | 0, 0, _ + 1 => rfl
    | 0, _ + 1, 0 => rfl
    | 0, _ + 1, _ + 1 => rfl
    | m + 1, a + 1, b + 1 =>
      have hdiv : (m + 1) / 10 < m + 1 := Nat.div_lt_self (by omega) (by omega)
      simp only [natDecCore]
      rw [ih ((m + 1) / 10) hdiv a b (by omega) (by omega)]

theorem natDecCore_eq (n : Nat) (h : n ≠ 0) :
    natDecCore n n = natDecCore (n / 10) (n / 10) ++ [Nat.digitChar (n % 10)] := by
  match n, h with
  | m + 1, _ =>
    have hdiv : (m + 1) / 10 < m + 1 := Nat.div_lt_self (by omega) (by omega)
    simp only [natDecCore]
    rw [natDecCore_fuel ((m + 1) / 10) m ((m + 1) / 10) (by omega) (by omega)]

theorem decVal_append (xs : List Char) (c : Char) :
    decVal (xs ++ [c]) = 10 * decVal xs + (c.toNat - 48) := by
  simp [decVal, List.foldl_append]

theorem digitChar_toNat (r : Nat) (h : r < 10) : (Nat.digitChar r).toNat = 48 + r := by
  interval_cases r <;> rfl

theorem decVal_natDecCore : ∀ n : Nat, decVal (natDecCore n n) = n := by
  intro n
  induction n using Nat.strong_induction_on with
  | _ n ih =>
    rcases Nat.eq_zero_or_pos n with h0 | hp
    · subst h0; rfl
    · have hdiv : n / 10 < n := Nat.div_lt_self hp (by omega)
      have hmod : n % 10 < 10 := Nat.mod_lt _ (by omega)
      rw [natDecCore_eq n (by omega), decVal_append, ih (n / 10) hdiv,
        digitChar_toNat (n % 10) hmod]
      omega

theorem natDecCore_digit : ∀ n : Nat, ∀ c ∈ natDecCore n n, c.isDigit := by
  intro n
  induction n using Nat.strong_induction_on with
  | _ n ih =>
    intro c hc
    rcases Nat.eq_zero_or_pos n with h0 | hp
    · subst h0; simp [natDecCore] at hc
    · have hdiv : n / 10 < n := Nat.div_lt_self hp (by omega)
      have hmod : n % 10 < 10 := Nat.mod_lt _ (by omega)
      rw [natDecCore_eq n (by omega)] at hc
      rcases List.mem_append.mp hc with h | h
      · exact ih (n / 10) hdiv c h
      · have : c = Nat.digitChar (n % 10) := by simpa using h
        subst this
        interval_cases h : n % 10 <;> decide

theorem natDec_digit (n : Nat) : ∀ c ∈ (natDec n).data, c.isDigit := by
  intro c hc
  by_cases h : n = 0
  · subst h; simp [natDec] at hc; subst hc; decide
  · simp only [natDec, if_neg h] at hc
    exact natDecCore_digit n c hc

theorem natDec_inj {n m : Nat} (h : natDec n = natDec m) : n = m := by
  by_cases hn : n = 0 <;> by_cases hm : m = 0
  · omega
  · exfalso
    simp only [natDec, if_pos hn, if_neg hm] at h
    have hd : (['0'] : List Char).asString.data = (natDecCore m m).asString.data := by
      rw [show ("0" : String) = (['0'] : List Char).asString from rfl] at h
      simpa using congrArg String.data h
    have : decVal ['0'] = decVal (natDecCore m m) := by
      simpa using congrArg decVal hd
    rw [decVal_natDecCore m] at this
    simp [decVal] at this
    omega
  · exfalso
    simp only [natDec, if_neg hn, if_pos hm] at h
    have hd : (natDecCore n n).asString.data = (['0'] : List Char).asString.data := by
      rw [show ("0" : String) = (['0'] : List Char).asString from rfl] at h
      simpa using congrArg String.data h
    have : decVal (natDecCore n n) = decVal ['0'] := by
      simpa using congrArg decVal hd
    rw [decVal_natDecCore n] at this
    simp [decVal] at this
    omega
  · simp only [natDec, if_neg hn, if_neg hm] at h
    have hd : natDecCore n n = natDecCore m m := by
      simpa using congrArg String.data h
    have := congrArg decVal hd
    rwa [decVal_natDecCore n, decVal_natDecCore m] at this

theorem intDec_inj {i j : Int} (h : intDec i = intDec j) : i = j := by
  match i, j with
  | .ofNat m, .ofNat k =>
    simp only [intDec] at h
    exact congrArg Int.ofNat (natDec_inj h)
  | .negSucc m, .negSucc k =>
    simp only [intDec] at h
    have hd := congrArg String.data h
    simp only [String.data_append] at hd
    have : (natDec (m + 1)).data = (natDec (k + 1)).data :=
      List.append_cancel_left hd
    have hmk := natDec_inj (String.ext this)
    exact congrArg Int.negSucc (by omega)
  | .ofNat m, .negSucc k =>
    exfalso
    simp only [intDec] at h
    have hd := congrArg String.data h
    simp only [String.data_append] at hd
    have hmem : '-' ∈ (natDec m).data := by
      rw [hd]
      exact List.mem_append_left _ (by decide)
    have := natDec_digit m '-' hmem
    simp [Char.isDigit] at this
  | .negSucc m, .ofNat k =>
    exfalso
    simp only [intDec] at h
    have hd := congrArg String.data h
    simp only [String.data_append] at hd
    have hmem : '-' ∈ (natDec k).data := by
      rw [← hd]
      exact List.mem_append_left _ (by decide)
    have := natDec_digit k '-' hmem
    simp [Char.isDigit] at this

theorem intDec_char (i : Int) : ∀ c ∈ (intDec i).data, c.isDigit ∨ c = '-' := by
  intro c hc
  match i with
  | .ofNat m => exact Or.inl (natDec_digit m c hc)
  | .negSucc m =>
    simp only [intDec, String.data_append] at hc
    rcases List.mem_append.mp hc with h | h
    · right; simpa using h
    · exact Or.inl (natDec_digit (m + 1) c h)

theorem intDec_ne_underscore (i : Int) : ∀ c ∈ (intDec i).data, c ≠ '_' := by
  intro c hc
  rcases intDec_char i c hc with h | h
  · intro he; subst he; simp [Char.isDigit] at h
  · subst h; decide

theorem intDec_ne_slash (i : Int) : ∀ c ∈ (intDec i).data, c ≠ '/' := by
  intro c hc
  rcases intDec_char i c hc with h | h
  · intro he; subst he; simp [Char.isDigit] at h
  · subst h; decide

/- ### Lemmas: unambiguous splitting of paths and filenames -/

/-- Splitting lists of characters at a separator that occurs in neither
left part is unambiguous. -/
theorem sep_split {sep : Char} : ∀ (a b x y : List Char), sep ∉ a → sep ∉ b →
    a ++ sep :: x = b ++ sep :: y → a = b ∧ x = y := by
  intro a
  induction a with
  | nil =>
    intro b x y _ hb h
    cases b with
    | nil => simpa using h
    | cons c t =>
      exfalso
      simp only [List.nil_append, List.cons_append, List.cons.injEq] at h
      exact hb (h.1 ▸ List.mem_cons_self c t)
  | cons c t ih =>
    intro b x y ha hb h
    cases b with
    | nil =>
      exfalso
      simp only [List.cons_append, List.nil_append, List.cons.injEq] at h
      exact ha (h.1 ▸ List.mem_cons_self c t)
    | cons d u =>
      simp only [List.cons_append, List.cons.injEq] at h
      obtain ⟨hcd, ht⟩ := h
      have := ih u x y (fun hm => ha (List.mem_cons_of_mem c hm))
        (fun hm => hb (hcd ▸ List.mem_cons_of_mem d hm)) ht
      exact ⟨by rw [hcd, this.1], this.2⟩

theorem data_slash (s t : String) : (s ++ "/" ++ t).data = s.data ++ '/' :: t.data := by
  rw [String.data_append, String.data_append, List.append_assoc]
  rfl

theorem data_group (s : String) (g : Int) :
    (s ++ "/group_" ++ intDec g).data
      = s.data ++ '/' :: 'g' :: 'r' :: 'o' :: 'u' :: 'p' :: '_' :: (intDec g).data := by
  rw [String.data_append, String.data_append, List.append_assoc]
  rfl

theorem build_unique_filename_data (msg : Msg) (d : String) :
    (build_unique_filename msg d).data
      = 'm' :: 's' :: 'g' :: '_' :: ((intDec msg.id).data ++ '_' :: (base_name msg d).data) := by
  unfold build_unique_filename
  rw [String.data_append, String.data_append, String.data_append,
    List.append_assoc, List.append_assoc]
  rfl

/-- The `msg_{id}_` prefix makes the filename determine the message id. -/
theorem build_unique_filename_inj {m₁ m₂ : Msg} {d₁ d₂ : String}
    (h : build_unique_filename m₁ d₁ = build_unique_filename m₂ d₂) : m₁.id = m₂.id := by
  have hd := congrArg String.data h
  rw [build_unique_filename_data, build_unique_filename_data] at hd
  injection hd with _ hd
  injection hd with _ hd
  injection hd with _ hd
  injection hd with _ hd
  have := sep_split (intDec m₁.id).data (intDec m₂.id).data _ _
    (fun hm => intDec_ne_underscore m₁.id '_' hm rfl)
    (fun hm => intDec_ne_underscore m₂.id '_' hm rfl) hd
  exact intDec_inj (String.ext this.1)

/-- The destination directory is the chat root or a `group_{g}` subfolder. -/
theorem target_dir_cases (chat_folder : String) (m : Msg) :
    target_dir chat_folder m = chat_folder
      ∨ ∃ g, target_dir chat_folder m = chat_folder ++ "/group_" ++ intDec g := by
  unfold target_dir
  match m.grouped_id with
  | none => exact Or.inl rfl
  | some g =>
    by_cases hg : g = 0
    · simp [hg]
    · exact Or.inr ⟨g, by simp [hg]⟩

/-- Full destination paths determine the message id: distinct ids never
share a path, whatever the chat root, album grouping, or declared names. -/
theorem out_path_id_eq {chat_folder : String} {m₁ m₂ : Msg}
    (h : out_path chat_folder m₁ = out_path chat_folder m₂) : m₁.id = m₂.id := by
  have hd := congrArg String.data h
  unfold out_path at hd
  rw [data_slash, data_slash] at hd
  rcases target_dir_cases chat_folder m₁ with h₁ | ⟨g₁, h₁⟩ <;>
    rcases target_dir_cases chat_folder m₂ with h₂ | ⟨g₂, h₂⟩ <;>
    rw [h₁, h₂] at hd
  · have hc := List.append_cancel_left hd
    injection hc with _ hc
    exact build_unique_filename_inj (String.ext hc)
  · exfalso
    rw [data_group] at hd
    simp only [List.append_assoc, List.cons_append] at hd
    have hc := List.append_cancel_left hd
    injection hc with _ hc
    rw [build_unique_filename_data] at hc
    injection hc with hc _
    exact absurd hc (by decide)
  · exfalso
    rw [data_group] at hd
    simp only [List.append_assoc, List.cons_append] at hd
    have hc := List.append_cancel_left hd
    injection hc with _ hc
    rw [build_unique_filename_data] at hc
    injection hc with hc _
    exact absurd hc (by decide)
  · rw [data_group, data_group] at hd
    simp only [List.append_assoc, List.cons_append] at hd
    have hc := List.append_cancel_left hd
    injection hc with _ hc
    injection hc with _ hc
    injection hc with _ hc
    injection hc with _ hc
    injection hc with _ hc
    injection hc with _ hc
    injection hc with _ hc
    have hsp := sep_split (intDec g₁).data (intDec g₂).data _ _
      (fun hm => intDec_ne_slash g₁ '/' hm rfl)
      (fun hm => intDec_ne_slash g₂ '/' hm rfl) hc
    exact build_unique_filename_inj (String.ext hsp.2)

/- ### Lemmas: the download pass -/

theorem download_pass_nil (fetch : Msg → FetchResult) (cf : String) (s : DlState) :
    download_pass fetch cf s [] = s := rfl

theorem download_pass_cons (fetch : Msg → FetchResult) (cf : String) (s : DlState)
    (m : Msg) (t : List Msg) :
    download_pass fetch cf s (m :: t)
      = download_pass fetch cf (process_message fetch cf s m) t := rfl

theorem download_pass_append (fetch : Msg → FetchResult) (cf : String) (s : DlState)
    (l₁ l₂ : List Msg) :
    download_pass fetch cf s (l₁ ++ l₂)
      = download_pass fetch cf (download_pass fetch cf s l₁) l₂ :=
  List.foldl_append _ _ _ _

/-- The branch equations of one loop iteration. -/
theorem process_message_ledger (fetch : Msg → FetchResult) (cf : String)
    (s : DlState) (m : Msg) (h : m.id ∈ s.downloaded_ids) :
    process_message fetch cf s m =
      { s with skipped := s.skipped + 1, advanced := s.advanced + 1,
               outcomes := s.outcomes ++ [(m.id, Outcome.skippedLedger)] } := by
  simp [process_message, h]

theorem process_message_existing (fetch : Msg → FetchResult) (cf : String)
    (s : DlState) (m : Msg) (h : m.id ∉ s.downloaded_ids)
    (hp : out_path cf m ∈ s.files) :
    process_message fetch cf s m =
      { s with downloaded_ids := insert m.id s.downloaded_ids,
               skipped := s.skipped + 1, advanced := s.advanced + 1,
               outcomes := s.outcomes ++ [(m.id, Outcome.skippedExisting)] } := by
  simp [process_message, h, hp]

theorem process_message_ok (fetch : Msg → FetchResult) (cf : String)
    (s : DlState) (m : Msg) (h : m.id ∉ s.downloaded_ids)
    (hp : out_path cf m ∉ s.files) (hf : fetch m = FetchResult.ok) :
    process_message fetch cf s m =
      { s with files := insert (out_path cf m) s.files,
               downloaded_ids := insert m.id s.downloaded_ids,
               completed := s.completed + 1, advanced := s.advanced + 1,
               fetched := s.fetched ++ [m.id],
               outcomes := s.outcomes ++ [(m.id, Outcome.downloadedNew)] } := by
  simp [process_message, h, hp, hf]

theorem process_message_flood (fetch : Msg → FetchResult) (cf : String)
    (s : DlState) (m : Msg) (h : m.id ∉ s.downloaded_ids)
    (hp : out_path cf m ∉ s.files) (w : Nat) (hf : fetch m = FetchResult.floodWait w) :
    process_message fetch cf s m =
      { s with slept := s.slept + w, fetched := s.fetched ++ [m.id] } := by
  simp [process_message, h, hp, hf]

theorem process_message_fail (fetch : Msg → FetchResult) (cf : String)
    (s : DlState) (m : Msg) (h : m.id ∉ s.downloaded_ids)
    (hp : out_path cf m ∉ s.files) (e : String) (hf : fetch m = FetchResult.fetchErr e) :
    process_message fetch cf s m =
      { s with advanced := s.advanced + 1,
               fetched := s.fetched ++ [m.id],
               logs := s.logs ++ [(m.id, e)],
               outcomes := s.outcomes ++ [(m.id, Outcome.failed)] } := by
  simp [process_message, h, hp, hf]

/-- The in-memory ledger only grows during the pass. -/
theorem process_message_ids_mono (fetch : Msg → FetchResult) (cf : String)
    (s : DlState) (m : Msg) :
    s.downloaded_ids ⊆ (process_message fetch cf s m).downloaded_ids := by
  by_cases h : m.id ∈ s.downloaded_ids
  · simp [process_message, h]
  · by_cases hp : out_path cf m ∈ s.files
    · simp [process_message, h, hp, Finset.subset_insert]
    · rcases hf : fetch m with _ | w | e <;>
        simp [process_message, h, hp, hf, Finset.subset_insert]

theorem download_pass_ids_mono (fetch : Msg → FetchResult) (cf : String) :
    ∀ (msgs : List Msg) (s : DlState),
      s.downloaded_ids ⊆ (download_pass fetch cf s msgs).downloaded_ids := by
  intro msgs
  induction msgs with
  | nil => intro s; exact Finset.Subset.refl _
  | cons m t ih =>
    intro s
    rw [download_pass_cons]
    exact (process_message_ids_mono fetch cf s m).trans (ih _)

/-- Recorded outcomes are never retracted. -/
theorem process_message_outcomes_mono (fetch : Msg → FetchResult) (cf : String)
    (s : DlState) (m : Msg) {x : Int × Outcome} (hx : x ∈ s.outcomes) :
    x ∈ (process_message fetch cf s m).outcomes := by
  by_cases h : m.id ∈ s.downloaded_ids
  · simp [process_message, h, List.mem_append, hx]
  · by_cases hp : out_path cf m ∈ s.files
    · simp [process_message, h, hp, List.mem_append, hx]
    · rcases hf : fetch m with _ | w | e <;>
        simp [process_message, h, hp, hf, List.mem_append, hx]

theorem download_pass_outcomes_mono (fetch : Msg → FetchResult) (cf : String) :
    ∀ (msgs : List Msg) (s : DlState) {x : Int × Outcome}, x ∈ s.outcomes →
      x ∈ (download_pass fetch cf s msgs).outcomes := by
  intro msgs
  induction msgs with
  | nil => intro s x hx; exact hx
  | cons m t ih =>
    intro s x hx
    rw [download_pass_cons]
    exact ih _ (process_message_outcomes_mono fetch cf s m hx)

/-- Ids of the pass-start ledger stay in the in-memory ledger, are never
handed to the fetch step, and any message bearing one is marked
ledger-skipped. -/
theorem download_pass_ledger_protect (fetch : Msg → FetchResult) (cf : String)
    (L : Finset Int) :
    ∀ (msgs : List Msg) (s : DlState), L ⊆ s.downloaded_ids →
      (∀ x ∈ s.fetched, x ∉ L) →
      ((∀ x ∈ (download_pass fetch cf s msgs).fetched, x ∉ L)
        ∧ ∀ m ∈ msgs, m.id ∈ L →
            (m.id, Outcome.skippedLedger) ∈ (download_pass fetch cf s msgs).outcomes) := by
  intro msgs
  induction msgs with
  | nil =>
    intro s hL hF
    exact ⟨hF, by simp⟩
  | cons m t ih =>
    intro s hL hF
    rw [download_pass_cons]
    have hLnext : L ⊆ (process_message fetch cf s m).downloaded_ids :=
      hL.trans (process_message_ids_mono fetch cf s m)
    have hFnext : ∀ x ∈ (process_message fetch cf s m).fetched, x ∉ L := by
      by_cases h : m.id ∈ s.downloaded_ids
      · simp only [process_message_ledger fetch cf s m h]
        exact hF
      · have hmL : m.id ∉ L := fun hmem => h (hL hmem)
        by_cases hp : out_path cf m ∈ s.files
        · simp only [process_message_existing fetch cf s m h hp]
          exact hF
        · rcases hf : fetch m with _ | w | e
          · simp only [process_message_ok fetch cf s m h hp hf]
            intro x hx
            rcases List.mem_append.mp hx with hx' | hx'
            · exact hF x hx'
            · simp at hx'
              subst hx'
              exact hmL
          · simp only [process_message_flood fetch cf s m h hp w hf]
            intro x hx
            rcases List.mem_append.mp hx with hx' | hx'
            · exact hF x hx'
            · simp at hx'
              subst hx'
              exact hmL
          · simp only [process_message_fail fetch cf s m h hp e hf]
            intro x hx
            rcases List.mem_append.mp hx with hx' | hx'
            · exact hF x hx'
            · simp at hx'
              subst hx'
              exact hmL
    obtain ⟨ihF, ihO⟩ := ih (process_message fetch cf s m) hLnext hFnext
    refine ⟨ihF, ?_⟩
    intro m' hm' hm'L
    rcases List.mem_cons.mp hm' with rfl | hm't
    · have hmem : m'.id ∈ s.downloaded_ids := hL hm'L
      have : (m'.id, Outcome.skippedLedger) ∈ (process_message fetch cf s m').outcomes := by
        rw [process_message_ledger fetch cf s m' hmem]
        simp
      exact download_pass_outcomes_mono fetch cf t _ this
    · exact ihO m' hm't hm'L

/-- When every message's destination file already exists, the pass only
reconciles: counters skip, nothing is fetched, no file is written. -/
theorem download_pass_all_existing (fetch : Msg → FetchResult) (cf : String)
    (files : Finset String) :
    ∀ (msgs : List Msg) (s : DlState), s.files = files →
      (∀ m ∈ msgs, out_path cf m ∈ files) →
      ((download_pass fetch cf s msgs).completed = s.completed
        ∧ (download_pass fetch cf s msgs).skipped = s.skipped + msgs.length
        ∧ (download_pass fetch cf s msgs).fetched = s.fetched
        ∧ (download_pass fetch cf s msgs).files = files
        ∧ ∀ m ∈ msgs,
            (m.id, Outcome.skippedLedger) ∈ (download_pass fetch cf s msgs).outcomes
              ∨ (m.id, Outcome.skippedExisting) ∈ (download_pass fetch cf s msgs).outcomes) := by
  intro msgs
  induction msgs with
  | nil =>
    intro s hs _
    exact ⟨rfl, rfl, rfl, hs, by simp⟩
  | cons m t ih =>
    intro s hs hall
    have hm := hall m (List.mem_cons_self m t)
    have htail := fun m' hm' => hall m' (List.mem_cons_of_mem m hm')
    rw [download_pass_cons]
    by_cases h : m.id ∈ s.downloaded_ids
    · rw [process_message_ledger fetch cf s m h]
      obtain ⟨h1, h2, h3, h4, h5⟩ := ih
        { s with skipped := s.skipped + 1, advanced := s.advanced + 1,
                 outcomes := s.outcomes ++ [(m.id, Outcome.skippedLedger)] } hs htail
      refine ⟨h1, ?_, h3, h4, ?_⟩
      · rw [h2]
        show s.skipped + 1 + t.length = s.skipped + (t.length + 1)
        omega
      · intro m' hm'
        rcases List.mem_cons.mp hm' with rfl | hm't
        · exact Or.inl (download_pass_outcomes_mono fetch cf t _ (by simp))
        · exact h5 m' hm't
    · rw [process_message_existing fetch cf s m h (hs ▸ hm)]
      obtain ⟨h1, h2, h3, h4, h5⟩ := ih
        { s with downloaded_ids := insert m.id s.downloaded_ids,
                 skipped := s.skipped + 1, advanced := s.advanced + 1,
                 outcomes := s.outcomes ++ [(m.id, Outcome.skippedExisting)] } hs htail
      refine ⟨h1, ?_, h3, h4, ?_⟩
      · rw [h2]
        show s.skipped + 1 + t.length = s.skipped + (t.length + 1)
        omega
      · intro m' hm'
        rcases List.mem_cons.mp hm' with rfl | hm't
        · exact Or.inr (download_pass_outcomes_mono fetch cf t _ (by simp))
        · exact h5 m' hm't

/-- When every message is new (id not in the ledger, file not on disk, ids
pairwise distinct) and every fetch succeeds, everything downloads. -/
theorem download_pass_all_new (fetch : Msg → FetchResult) (cf : String) :
    ∀ (msgs : List Msg) (s : DlState), (msgs.map Msg.id).Nodup →
      (∀ m ∈ msgs, fetch m = FetchResult.ok) →
      (∀ m ∈ msgs, m.id ∉ s.downloaded_ids) →
      (∀ m ∈ msgs, out_path cf m ∉ s.files) →
      ((download_pass fetch cf s msgs).completed = s.completed + msgs.length
        ∧ (download_pass fetch cf s msgs).skipped = s.skipped
        ∧ (download_pass fetch cf s msgs).downloaded_ids
            = s.downloaded_ids ∪ (msgs.map Msg.id).toFinset) := by
  intro msgs
  induction msgs with
  | nil =>
    intro s _ _ _ _
    exact ⟨rfl, rfl, by rw [download_pass_nil]; simp⟩
  | cons m t ih =>
    intro s hnd hok hids hfiles
    rw [download_pass_cons,
      process_message_ok fetch cf s m (hids m (List.mem_cons_self m t))
        (hfiles m (List.mem_cons_self m t)) (hok m (List.mem_cons_self m t))]
    have hndt : (t.map Msg.id).Nodup := (List.nodup_cons.mp (by simpa using hnd)).2
    have hhead : m.id ∉ t.map Msg.id := (List.nodup_cons.mp (by simpa using hnd)).1
    obtain ⟨h1, h2, h3⟩ := ih
      { s with files := insert (out_path cf m) s.files,
               downloaded_ids := insert m.id s.downloaded_ids,
               completed := s.completed + 1, advanced := s.advanced + 1,
               fetched := s.fetched ++ [m.id],
               outcomes := s.outcomes ++ [(m.id, Outcome.downloadedNew)] }
      hndt
      (fun m' hm' => hok m' (List.mem_cons_of_mem m hm'))
      (by
        intro m' hm'
        show m'.id ∉ insert m.id s.downloaded_ids
        simp only [Finset.mem_insert]
        push_neg
        refine ⟨?_, hids m' (List.mem_cons_of_mem m hm')⟩
        intro he
        exact hhead (he ▸ List.mem_map_of_mem Msg.id hm'))
      (by
        intro m' hm'
        show out_path cf m' ∉ insert (out_path cf m) s.files
        simp only [Finset.mem_insert]
        push_neg
        refine ⟨?_, hfiles m' (List.mem_cons_of_mem m hm')⟩
        intro he
        exact hhead ((out_path_id_eq he) ▸ List.mem_map_of_mem Msg.id hm'))
    refine ⟨?_, h2, ?_⟩
    · rw [h1]
      show s.completed + 1 + t.length = s.completed + (t.length + 1)
      omega
    · rw [h3]
      show insert m.id s.downloaded_ids ∪ (t.map Msg.id).toFinset
        = s.downloaded_ids ∪ (m.id :: t.map Msg.id).toFinset
      rw [List.toFinset_cons, Finset.insert_union, Finset.union_insert]

/-- When every message id is already in the in-memory ledger, the pass
only counts skips. -/
theorem download_pass_all_ledger (fetch : Msg → FetchResult) (cf : String) :
    ∀ (msgs : List Msg) (s : DlState), (∀ m ∈ msgs, m.id ∈ s.downloaded_ids) →
      ((download_pass fetch cf s msgs).completed = s.completed
        ∧ (download_pass fetch cf s msgs).skipped = s.skipped + msgs.length) := by
  intro msgs
  induction msgs with
  | nil =>
    intro s _
    exact ⟨rfl, rfl⟩
  | cons m t ih =>
    intro s hall
    rw [download_pass_cons, process_message_ledger fetch cf s m (hall m (List.mem_cons_self m t))]
    obtain ⟨h1, h2⟩ := ih
      { s with skipped := s.skipped + 1, advanced := s.advanced + 1,
               outcomes := s.outcomes ++ [(m.id, Outcome.skippedLedger)] }
      (fun m' hm' => hall m' (List.mem_cons_of_mem m hm'))
    refine ⟨h1, ?_⟩
    rw [h2]
    show s.skipped + 1 + t.length = s.skipped + (t.length + 1)
    omega

/- ### Lemmas: ledger save/load roundtrip -/

theorem pyIntList_vInt : ∀ l : List Int, pyIntList (l.map PyVal.vInt) = Except.ok l := by
  intro l
  induction l with
  | nil => rfl
  | cons x t ih => simp [pyIntList, pyInt, ih]

/-- Loading back the payload that `save_downloaded_set` wrote yields
exactly the saved set. -/
theorem load_saved_payload (chat_folder : String) (msg_ids : Finset Int)
    (chat_meta : ChatMeta) :
    load_downloaded_set (LedgerFile.parsed
        (payloadVal (save_downloaded_set chat_folder msg_ids chat_meta).1))
      = msg_ids := by
  have hget : pyGet (payloadVal (save_downloaded_set chat_folder msg_ids chat_meta).1)
      "downloaded_ids" (.vList [])
        = Except.ok (.vList ((msg_ids.sort (· ≤ ·)).map PyVal.vInt)) := by
    simp [payloadVal, pyGet, save_downloaded_set, List.lookup]
  simp only [load_downloaded_set, load_ids, hget, pyIterate, pyIntList_vInt]
  simp [Finset.sort_toFinset]

/- ### Lemmas: the scan collector -/

/-- For any media type other than `"photos"` and `"videos"`, the loop
accumulates exactly the messages surviving the `both` filter. -/
theorem collect_fold_both (media_type : String) (h1 : media_type ≠ "photos")
    (h2 : media_type ≠ "videos") :
    ∀ (l : List (Option Msg)) (acc : List Msg),
      l.foldl (collect_step media_type) acc = acc ++ l.filterMap both_filter := by
  intro l
  induction l with
  | nil => intro acc; simp
  | cons m? t ih =>
    intro acc
    rw [List.foldl_cons, ih]
    match m? with
    | none => simp [collect_step, both_filter]
    | some m =>
      match hm : m.media with
      | none => simp [collect_step, both_filter, hm]
      | some md =>
        by_cases hk : is_photo_message (some m) || is_video_message (some m)
        · simp [collect_step, both_filter, hm, h1, h2, hk]
        · simp [collect_step, both_filter, hm, h1, h2, hk]

/- ### Claim theorems -/

/-- C7: for every pair of messages with distinct message IDs, the naming
resolver returns distinct filename strings, even when both declare the
identical attachment filename; the result is the (declared or synthesized)
base prefixed with `msg_<id>_`. -/
theorem c7_unique_filenames :
    (∀ (m₁ m₂ : Msg) (d₁ d₂ : String), m₁.id ≠ m₂.id →
        build_unique_filename m₁ d₁ ≠ build_unique_filename m₂ d₂)
      ∧ ∀ (m : Msg) (d : String),
          build_unique_filename m d = "msg_" ++ intDec m.id ++ "_" ++ base_name m d := by
  refine ⟨?_, fun m d => rfl⟩
  intro m₁ m₂ d₁ d₂ hne he
  exact hne (build_unique_filename_inj he)

theorem c7_unique_filenames_witness :
    (sampleNamed 1).id ≠ (sampleNamed 2).id
      ∧ build_unique_filename (sampleNamed 1) ".bin"
          ≠ build_unique_filename (sampleNamed 2) ".bin" :=
  ⟨by decide,
    c7_unique_filenames.1 (sampleNamed 1) (sampleNamed 2) ".bin" ".bin" (by decide)⟩

/-- C8: persisting the ledger writes a payload whose `chat_id` and
`chat_name` come from the chat metadata and whose `downloaded_ids` is a
sorted ascending duplicate-free listing of exactly the saved set, and the
effect sequence is a write to the temp file followed by a rename of the
temp file over the (distinct) ledger path. -/
theorem c8_save_sorted_atomic (chat_folder : String) (msg_ids : Finset Int)
    (chat_meta : ChatMeta) :
    (save_downloaded_set chat_folder msg_ids chat_meta).1.chat_id = chat_meta.id
    ∧ (save_downloaded_set chat_folder msg_ids chat_meta).1.chat_name = chat_meta.name
    ∧ List.Sorted (· ≤ ·) (save_downloaded_set chat_folder msg_ids chat_meta).1.downloaded_ids
    ∧ (save_downloaded_set chat_folder msg_ids chat_meta).1.downloaded_ids.Nodup
    ∧ (save_downloaded_set chat_folder msg_ids chat_meta).1.downloaded_ids.toFinset = msg_ids
    ∧ (save_downloaded_set chat_folder msg_ids chat_meta).2
        = [FsOp.writeFile (ledger_tmp_path chat_folder)
             (save_downloaded_set chat_folder msg_ids chat_meta).1,
           FsOp.replaceFile (ledger_tmp_path chat_folder) (per_chat_log_path chat_folder)]
    ∧ ledger_tmp_path chat_folder ≠ per_chat_log_path chat_folder := by
  refine ⟨rfl, rfl, Finset.sort_sorted _ _, Finset.sort_nodup _ _,
    Finset.sort_toFinset _ _, rfl, ?_⟩
  intro h
  have hd := congrArg String.data h
  rw [ledger_tmp_path, per_chat_log_path, String.data_append, String.data_append] at hd
  exact absurd (List.append_cancel_left hd) (by decide)

theorem c8_save_sorted_atomic_witness :
    List.Sorted (· ≤ ·)
      (save_downloaded_set "downloads/chat" {3, 1} ⟨some 7, some "chat"⟩).1.downloaded_ids :=
  (c8_save_sorted_atomic "downloads/chat" {3, 1} ⟨some 7, some "chat"⟩).2.2.1

/-- C9: loading the ledger never propagates an error: the result is
either the empty set (missing file, unparsable JSON, non-dict top level,
entries `int()` rejects) or the successfully decoded id set. -/
theorem c9_load_never_fatal :
    (∀ c : LedgerFile, load_downloaded_set c = ∅
        ∨ ∃ v, c = LedgerFile.parsed v ∧ load_ids v = Except.ok (load_downloaded_set c))
    ∧ load_downloaded_set LedgerFile.missing = ∅
    ∧ load_downloaded_set LedgerFile.unparsable = ∅
    ∧ load_downloaded_set (LedgerFile.parsed (PyVal.vDict
        [("downloaded_ids", PyVal.vList [PyVal.vInt 3, PyVal.vStr "abc"])])) = ∅
    ∧ load_downloaded_set (LedgerFile.parsed (PyVal.vList [PyVal.vInt 1])) = ∅
    ∧ load_downloaded_set (LedgerFile.parsed (PyVal.vDict
        [("downloaded_ids", PyVal.vInt 5)])) = ∅ := by
  refine ⟨?_, rfl, rfl, by decide, by decide, by decide⟩
  intro c
  match c with
  | .missing => exact Or.inl rfl
  | .unparsable => exact Or.inl rfl
  | .parsed v =>
    match h : load_ids v with
    | .ok s => exact Or.inr ⟨v, rfl, by simp [load_downloaded_set, h]⟩
    | .error e => exact Or.inl (by simp [load_downloaded_set, h])

/-- C5: the collector reverses the collected sequence exactly when
`order = "oldest"` and otherwise preserves newest-first order; on
newest-first ids `[5, 3, 1]`, `oldest` yields `[1, 3, 5]` and `newest`
yields `[5, 3, 1]`. -/
theorem c5_order_contract :
    (∀ (history : List (Option Msg)) (media_type : String) (limit : Nat),
        collect_media_messages history media_type limit "oldest"
          = (collect_media_messages history media_type limit "newest").reverse)
    ∧ (∀ (history : List (Option Msg)) (media_type : String) (limit : Nat) (order : String),
        order ≠ "oldest" →
          collect_media_messages history media_type limit order
            = collect_media_messages history media_type limit "newest")
    ∧ (collect_media_messages sampleHistory "both" 10 "oldest").map Msg.id = [1, 3, 5]
    ∧ (collect_media_messages sampleHistory "both" 10 "newest").map Msg.id = [5, 3, 1] := by
  refine ⟨?_, ?_, by decide, by decide⟩
  · intro history mt limit
    rw [collect_media_messages, collect_media_messages, if_pos rfl, if_neg (by decide)]
  · intro history mt limit order hord
    rw [collect_media_messages, collect_media_messages, if_neg hord, if_neg (by decide)]

theorem c5_order_contract_witness :
    ("newest" : String) ≠ "oldest"
      ∧ collect_media_messages sampleHistory "both" 10 "newest"
          = collect_media_messages sampleHistory "both" 10 "newest" :=
  ⟨by decide, c5_order_contract.2.1 sampleHistory "both" 10 "newest" (by decide)⟩

/-- C10: any media type other than `"photos"` and `"videos"` (not only the
documented `"both"`) falls into the `both` branch: the collector behaves
exactly as with `"both"`, keeping precisely the media messages classifying
as photo or video. -/
theorem c10_fallback_both (media_type : String) (h1 : media_type ≠ "photos")
    (h2 : media_type ≠ "videos") (history : List (Option Msg)) (limit : Nat)
    (order : String) :
    collect_media_messages history media_type limit order
      = collect_media_messages history "both" limit order
    ∧ collect_media_messages history media_type limit "newest"
      = (history.take limit).filterMap both_filter := by
  have hmt := collect_fold_both media_type h1 h2 (history.take limit) []
  have hboth := collect_fold_both "both" (by decide) (by decide) (history.take limit) []
  constructor
  · simp only [collect_media_messages, hmt, hboth]
  · simp only [collect_media_messages, hmt]
    rw [if_neg (by decide)]
    simp

theorem c10_fallback_both_witness :
    ("all" : String) ≠ "photos" ∧ ("all" : String) ≠ "videos"
      ∧ collect_media_messages sampleHistory "all" 10 "newest"
          = collect_media_messages sampleHistory "both" 10 "newest" :=
  ⟨by decide, by decide,
    (c10_fallback_both "all" (by decide) (by decide) sampleHistory 10 "newest").1⟩

/-- C1 (code behavior at the claimed scenario): a fetch that signals a
rate limit with wait 2 makes the pass sleep 2, but the `for` loop then
moves past the message without retrying it: the fetch ran exactly once,
no outcome (Downloaded / Skipped / Failed) is recorded, the id never
enters the ledger, the counters stay 0, and progress is never advanced
for it.  The message is silently dropped, contradicting the claimed
retry-same-message loop. -/
theorem c1_flood_wait_drops_message :
    (download_messages (fun _ => FetchResult.floodWait 2) "downloads/chat" ∅ ∅
        [sampleMsg 1]).completed = 0
    ∧ (download_messages (fun _ => FetchResult.floodWait 2) "downloads/chat" ∅ ∅
        [sampleMsg 1]).skipped = 0
    ∧ (download_messages (fun _ => FetchResult.floodWait 2) "downloads/chat" ∅ ∅
        [sampleMsg 1]).advanced = 0
    ∧ (download_messages (fun _ => FetchResult.floodWait 2) "downloads/chat" ∅ ∅
        [sampleMsg 1]).slept = 2
    ∧ (download_messages (fun _ => FetchResult.floodWait 2) "downloads/chat" ∅ ∅
        [sampleMsg 1]).fetched = [(1 : Int)]
    ∧ (download_messages (fun _ => FetchResult.floodWait 2) "downloads/chat" ∅ ∅
        [sampleMsg 1]).outcomes = []
    ∧ (1 : Int) ∉ (download_messages (fun _ => FetchResult.floodWait 2) "downloads/chat" ∅ ∅
        [sampleMsg 1]).downloaded_ids := by
  decide

/-- C2: every id in the ledger loaded at pass start is never handed to the
fetch step, and each message bearing such an id is marked ledger-skipped;
the skip branch increments `skipped` (not `completed`) and advances. -/
theorem c2_ledger_dedup (fetch : Msg → FetchResult) (chat_folder : String)
    (ledger : Finset Int) (files : Finset String) (messages : List Msg) :
    (∀ x ∈ (download_messages fetch chat_folder ledger files messages).fetched, x ∉ ledger)
    ∧ (∀ m ∈ messages, m.id ∈ ledger →
        (m.id, Outcome.skippedLedger)
          ∈ (download_messages fetch chat_folder ledger files messages).outcomes)
    ∧ (∀ (s : DlState) (m : Msg), m.id ∈ s.downloaded_ids →
        process_message fetch chat_folder s m
          = { s with skipped := s.skipped + 1, advanced := s.advanced + 1,
                     outcomes := s.outcomes ++ [(m.id, Outcome.skippedLedger)] }) := by
  obtain ⟨h1, h2⟩ := download_pass_ledger_protect fetch chat_folder ledger messages
    (init_state ledger files) (Finset.Subset.refl _)
    (fun x hx => absurd hx (List.not_mem_nil x))
  exact ⟨h1, h2, fun s m h => process_message_ledger fetch chat_folder s m h⟩

theorem c2_ledger_dedup_witness :
    sampleMsg 7 ∈ [sampleMsg 7]
    ∧ (7 : Int) ∈ ({7} : Finset Int)
    ∧ ((sampleMsg 7).id, Outcome.skippedLedger)
        ∈ (download_messages (fun _ => FetchResult.ok) "downloads/chat" {7} ∅
            [sampleMsg 7]).outcomes :=
  ⟨List.mem_singleton.mpr rfl, by decide,
    (c2_ledger_dedup (fun _ => FetchResult.ok) "downloads/chat" {7} ∅ [sampleMsg 7]).2.1
      (sampleMsg 7) (List.mem_singleton.mpr rfl) (by decide)⟩

/-- C4: a message whose destination file already exists is reconciled: its
id is added to the ledger, it is skip-counted, nothing is fetched and no
file is written; hence with the ledger gone but all destination files
present, a re-run skips every message, fetches nothing, and leaves the
filesystem untouched. -/
theorem c4_existing_file_reconcile (fetch : Msg → FetchResult) (chat_folder : String)
    (files : Finset String) (messages : List Msg) :
    (∀ (s : DlState) (m : Msg), m.id ∉ s.downloaded_ids →
        out_path chat_folder m ∈ s.files →
        process_message fetch chat_folder s m
          = { s with downloaded_ids := insert m.id s.downloaded_ids,
                     skipped := s.skipped + 1, advanced := s.advanced + 1,
                     outcomes := s.outcomes ++ [(m.id, Outcome.skippedExisting)] })
    ∧ ((∀ m ∈ messages, out_path chat_folder m ∈ files) →
        (download_messages fetch chat_folder ∅ files messages).completed = 0
        ∧ (download_messages fetch chat_folder ∅ files messages).skipped = messages.length
        ∧ (download_messages fetch chat_folder ∅ files messages).fetched = []
        ∧ (download_messages fetch chat_folder ∅ files messages).files = files
        ∧ ∀ m ∈ messages,
            (m.id, Outcome.skippedLedger)
              ∈ (download_messages fetch chat_folder ∅ files messages).outcomes
            ∨ (m.id, Outcome.skippedExisting)
              ∈ (download_messages fetch chat_folder ∅ files messages).outcomes) := by
  constructor
  · intro s m h hp
    exact process_message_existing fetch chat_folder s m h hp
  · intro hall
    obtain ⟨h1, h2, h3, h4, h5⟩ := download_pass_all_existing fetch chat_folder files
      messages (init_state ∅ files) rfl hall
    refine ⟨h1, ?_, h3, h4, h5⟩
    show (download_pass fetch chat_folder (init_state ∅ files) messages).skipped
      = messages.length
    rw [h2]
    show 0 + messages.length = messages.length
    omega

theorem c4_existing_file_reconcile_witness :
    out_path "downloads/chat" (sampleMsg 4)
        ∈ ({out_path "downloads/chat" (sampleMsg 4)} : Finset String)
    ∧ (download_messages (fun _ => FetchResult.ok) "downloads/chat" ∅
        {out_path "downloads/chat" (sampleMsg 4)} [sampleMsg 4]).completed = 0
    ∧ (download_messages (fun _ => FetchResult.ok) "downloads/chat" ∅
        {out_path "downloads/chat" (sampleMsg 4)} [sampleMsg 4]).skipped = 1 := by
  have h : ∀ m ∈ [sampleMsg 4], out_path "downloads/chat" m
      ∈ ({out_path "downloads/chat" (sampleMsg 4)} : Finset String) := by
    intro m hm
    rw [List.mem_singleton.mp hm]
    exact Finset.mem_singleton_self _
  have hc := (c4_existing_file_reconcile (fun _ => FetchResult.ok) "downloads/chat"
    {out_path "downloads/chat" (sampleMsg 4)} [sampleMsg 4]).2 h
  exact ⟨Finset.mem_singleton_self _, hc.1, hc.2.1⟩

/-- C6: a fetch failing with an ordinary exception leaves the ledger, the
filesystem and both counters untouched, appends one log line with the
message id and the error, records a Failed outcome, advances progress by
one, and the pass simply continues folding the remaining messages from
that state (no abort, no retry, siblings unaffected). -/
theorem c6_error_isolated (fetch : Msg → FetchResult) (chat_folder : String)
    (ledger : Finset Int) (files : Finset String) (pre post : List Msg) (m : Msg)
    (e : String) (hf : fetch m = FetchResult.fetchErr e)
    (hid : m.id ∉ (download_messages fetch chat_folder ledger files pre).downloaded_ids)
    (hp : out_path chat_folder m
        ∉ (download_messages fetch chat_folder ledger files pre).files) :
    download_messages fetch chat_folder ledger files (pre ++ m :: post)
      = download_pass fetch chat_folder
          (process_message fetch chat_folder
            (download_messages fetch chat_folder ledger files pre) m) post
    ∧ process_message fetch chat_folder
        (download_messages fetch chat_folder ledger files pre) m
      = { download_messages fetch chat_folder ledger files pre with
          advanced := (download_messages fetch chat_folder ledger files pre).advanced + 1,
          fetched := (download_messages fetch chat_folder ledger files pre).fetched ++ [m.id],
          logs := (download_messages fetch chat_folder ledger files pre).logs ++ [(m.id, e)],
          outcomes := (download_messages fetch chat_folder ledger files pre).outcomes
            ++ [(m.id, Outcome.failed)] } := by
  constructor
  · show download_pass fetch chat_folder (init_state ledger files) (pre ++ m :: post) = _
    rw [download_pass_append]
    rfl
  · exact process_message_fail fetch chat_folder _ m hid hp e hf

theorem c6_error_isolated_witness :
    sampleFetch (sampleMsg 9) = FetchResult.fetchErr "boom"
    ∧ download_messages sampleFetch "downloads/chat" ∅ ∅ ([] ++ sampleMsg 9 :: [sampleMsg 2])
        = download_pass sampleFetch "downloads/chat"
            (process_message sampleFetch "downloads/chat"
              (download_messages sampleFetch "downloads/chat" ∅ ∅ []) (sampleMsg 9))
            [sampleMsg 2] :=
  ⟨by decide,
    (c6_error_isolated sampleFetch "downloads/chat" ∅ ∅ [] [sampleMsg 2] (sampleMsg 9)
      "boom" (by decide) (by decide) (by decide)).1⟩

/-- C3: over an unchanged history of messages with pairwise-distinct ids
and a transport that always succeeds, a first pass starting from no ledger
file and no files downloads everything (`completed = N, skipped = 0`);
a second pass re-loading the ledger the first one saved, over the files
the first one wrote, downloads nothing (`completed = 0, skipped = N`). -/
theorem c3_idempotent_two_runs (chat_folder : String) (chat_meta : ChatMeta)
    (messages : List Msg) (hnd : (messages.map Msg.id).Nodup) :
    (download_messages (fun _ => FetchResult.ok) chat_folder
        (load_downloaded_set LedgerFile.missing) ∅ messages).completed = messages.length
    ∧ (download_messages (fun _ => FetchResult.ok) chat_folder
        (load_downloaded_set LedgerFile.missing) ∅ messages).skipped = 0
    ∧ (download_messages (fun _ => FetchResult.ok) chat_folder
        (load_downloaded_set (LedgerFile.parsed (payloadVal
          (save_downloaded_set chat_folder
            (download_messages (fun _ => FetchResult.ok) chat_folder
              (load_downloaded_set LedgerFile.missing) ∅ messages).downloaded_ids
            chat_meta).1)))
        (download_messages (fun _ => FetchResult.ok) chat_folder
          (load_downloaded_set LedgerFile.missing) ∅ messages).files
        messages).completed = 0
    ∧ (download_messages (fun _ => FetchResult.ok) chat_folder
        (load_downloaded_set (LedgerFile.parsed (payloadVal
          (save_downloaded_set chat_folder
            (download_messages (fun _ => FetchResult.ok) chat_folder
              (load_downloaded_set LedgerFile.missing) ∅ messages).downloaded_ids
            chat_meta).1)))
        (download_messages (fun _ => FetchResult.ok) chat_folder
          (load_downloaded_set LedgerFile.missing) ∅ messages).files
        messages).skipped = messages.length := by
  obtain ⟨h1, h2, h3⟩ := download_pass_all_new (fun _ => FetchResult.ok) chat_folder
    messages (init_state (load_downloaded_set LedgerFile.missing) ∅) hnd
    (fun _ _ => rfl)
    (fun m hm => by show m.id ∉ (∅ : Finset Int); simp)
    (fun m hm => by show out_path chat_folder m ∉ (∅ : Finset String); simp)
  have hload := load_saved_payload chat_folder
    (download_messages (fun _ => FetchResult.ok) chat_folder
      (load_downloaded_set LedgerFile.missing) ∅ messages).downloaded_ids chat_meta
  have hmem : ∀ m ∈ messages,
      m.id ∈ (init_state (load_downloaded_set (LedgerFile.parsed (payloadVal
        (save_downloaded_set chat_folder
          (download_messages (fun _ => FetchResult.ok) chat_folder
            (load_downloaded_set LedgerFile.missing) ∅ messages).downloaded_ids
          chat_meta).1)))
        (download_messages (fun _ => FetchResult.ok) chat_folder
          (load_downloaded_set LedgerFile.missing) ∅ messages).files).downloaded_ids := by
    intro m hm
    show m.id ∈ load_downloaded_set (LedgerFile.parsed (payloadVal
      (save_downloaded_set chat_folder
        (download_messages (fun _ => FetchResult.ok) chat_folder
          (load_downloaded_set LedgerFile.missing) ∅ messages).downloaded_ids
        chat_meta).1))
    rw [hload]
    show m.id ∈ (download_pass (fun _ => FetchResult.ok) chat_folder
      (init_state (load_downloaded_set LedgerFile.missing) ∅) messages).downloaded_ids
    rw [h3]
    exact Finset.mem_union_right _
      (List.mem_toFinset.mpr (List.mem_map_of_mem Msg.id hm))
  obtain ⟨g1, g2⟩ := download_pass_all_ledger (fun _ => FetchResult.ok) chat_folder
    messages
    (init_state (load_downloaded_set (LedgerFile.parsed (payloadVal
        (save_downloaded_set chat_folder
          (download_messages (fun _ => FetchResult.ok) chat_folder
            (load_downloaded_set LedgerFile.missing) ∅ messages).downloaded_ids
          chat_meta).1)))
      (download_messages (fun _ => FetchResult.ok) chat_folder
        (load_downloaded_set LedgerFile.missing) ∅ messages).files)
    hmem
  refine ⟨?_, h2, g1, ?_⟩
  · show (download_pass (fun _ => FetchResult.ok) chat_folder
      (init_state (load_downloaded_set LedgerFile.missing) ∅) messages).completed
        = messages.length
    rw [h1]
    show 0 + messages.length = messages.length
    omega
  · show (download_pass (fun _ => FetchResult.ok) chat_folder
      (init_state (load_downloaded_set (LedgerFile.parsed (payloadVal
          (save_downloaded_set chat_folder
            (download_messages (fun _ => FetchResult.ok) chat_folder
              (load_downloaded_set LedgerFile.missing) ∅ messages).downloaded_ids
            chat_meta).1)))
        (download_messages (fun _ => FetchResult.ok) chat_folder
          (load_downloaded_set LedgerFile.missing) ∅ messages).files)
      messages).skipped = messages.length
    rw [g2]
    show 0 + messages.length = messages.length
    omega

theorem c3_idempotent_two_runs_witness :
    ([sampleMsg 1, sampleMsg 2].map Msg.id).Nodup
    ∧ (download_messages (fun _ => FetchResult.ok) "downloads/chat"
        (load_downloaded_set LedgerFile.missing) ∅ [sampleMsg 1, sampleMsg 2]).completed = 2 :=
  ⟨by decide,
    (c3_idempotent_two_runs "downloads/chat" ⟨some 7, some "chat"⟩
      [sampleMsg 1, sampleMsg 2] (by decide)).1⟩
